import Mathlib

/-!
Verification of the `Dirichlet` parameter-store component
(`inferactively/distributions/dirichlet.py`).

The store holds either one dense numpy tensor or an object-dtype array of
independently shaped tensors ("array of arrays", `IS_AOA`).  We embed a numpy
tensor as its shape together with its row-major flat data.  Finite float
values are modelled as exact rationals; the operations `normalize` and `wnorm`
can produce infinities and NaN (division by zero), so their results live in an
extended value type `EV`.  `np.log` results live in a symbolic type `LogV`
that records the (positive) argument of a finite logarithm, `-inf` for
`log 0`, and NaN for the log of a negative number: equality and finiteness of
log results depend only on the arguments, which is all the specification
needs.

Python methods that can mutate the receiver are embedded as functions that
return the post-call state of `self` together with the returned value, so
frame properties ("`self` is not mutated") are stated as theorems.
-/

/-- A numpy ndarray: its shape and its row-major flat data. -/
structure Tensor (α : Type) where
  shape : List ℕ
  data : List α
deriving DecidableEq, Repr

/-- Number of axes (`ndarray.ndim`). -/
def Tensor.ndim {α : Type} (t : Tensor α) : ℕ := t.shape.length

/-- Size of axis 0 (`shape[0]`), the "row" axis along which columns are summed. -/
def Tensor.rows {α : Type} (t : Tensor α) : ℕ := t.shape.headD 0

/-- Number of "columns": the product of the trailing axes.  Flat index `k`
corresponds to row `k / cols` and column `k % cols`. -/
def Tensor.cols {α : Type} (t : Tensor α) : ℕ := t.shape.tail.prod

/-- Well-formedness: the flat data has exactly one entry per position of the shape. -/
def Tensor.wf {α : Type} (t : Tensor α) : Prop := t.data.length = t.shape.prod

/-- All entries are nonnegative (the intended domain of concentration parameters). -/
def Tensor.nonneg (t : Tensor ℚ) : Prop := ∀ x ∈ t.data, 0 ≤ x

/-- Extended float value: a finite value (an exact rational), `inf`, `-inf`, or NaN. -/
inductive EV where
  | fin (q : ℚ)
  | pinf
  | ninf
  | nan
deriving DecidableEq, Repr

/-- Whether an extended value is NaN (`np.isnan`). -/
def EV.isNaN : EV → Bool
  | .nan => true
  | _ => false

/-- IEEE division of two finite values (`np.divide` on finite floats):
nonzero denominator divides exactly; `0/0` is NaN; `x/0` is `±inf` for `x ≠ 0`. -/
def ediv (a b : ℚ) : EV :=
  if b ≠ 0 then .fin (a / b)
  else if a = 0 then .nan
  else if 0 < a then .pinf
  else .ninf

/-- IEEE subtraction on extended values (only division results ever reach it). -/
def esub : EV → EV → EV
  | .fin a, .fin b => .fin (a - b)
  | .fin _, .pinf => .ninf
  | .fin _, .ninf => .pinf
  | .pinf, .fin _ => .pinf
  | .pinf, .pinf => .nan
  | .pinf, .ninf => .pinf
  | .ninf, .fin _ => .ninf
  | .ninf, .pinf => .ninf
  | .ninf, .ninf => .nan
  | .nan, _ => .nan
  | _, .nan => .nan

/-- Result of `np.log` on a finite float: `lg q` stands for the finite float
`log q` (for `q > 0`), `ninf` for `log 0 = -inf`, `nan` for the log of a
negative number.  `log` is injective on positives, so equality of results is
equality of these symbols. -/
inductive LogV where
  | lg (q : ℚ)
  | ninf
  | nan
deriving DecidableEq, Repr

/-- Elementwise `np.log` of a finite float. -/
def np_log (q : ℚ) : LogV :=
  if 0 < q then .lg q else if q = 0 then .ninf else .nan

/-- Whether a log result is a finite number. -/
def LogV.isFinite : LogV → Bool
  | .lg _ => true
  | _ => false

/-- The value container of a store: one dense tensor, or an object-dtype array
of independently shaped tensors (`IS_AOA`). -/
inductive Values (α : Type) where
  | dense (t : Tensor α)
  | ragged (ts : List (Tensor α))
deriving DecidableEq, Repr

/-- The Dirichlet parameter store: it owns its `values` container. -/
structure Dirichlet (α : Type) where
  values : Values α
deriving DecidableEq, Repr

/-- The `IS_AOA` tag, determined by which kind of container is held. -/
def Dirichlet.IS_AOA {α : Type} (d : Dirichlet α) : Bool :=
  match d.values with
  | .dense _ => false
  | .ragged _ => true

/-- Well-formedness of every held tensor. -/
def Dirichlet.wfD (d : Dirichlet ℚ) : Prop :=
  match d.values with
  | .dense t => t.wf
  | .ragged ts => ∀ t ∈ ts, t.wf

/-- Nonnegativity of every held entry. -/
def Dirichlet.nonnegD (d : Dirichlet ℚ) : Prop :=
  match d.values with
  | .dense t => t.nonneg
  | .ragged ts => ∀ t ∈ ts, t.nonneg

/-- `np.expand_dims(v, axis=1)` on a rank-1 tensor: shape `[n]` becomes `[n, 1]`,
the data is unchanged. -/
def expandDims1 {α : Type} (t : Tensor α) : Tensor α :=
  ⟨t.shape ++ [1], t.data⟩

/-- The rank-promotion step `if v.ndim == 1: v = np.expand_dims(v, axis=1)`. -/
def promote {α : Type} (t : Tensor α) : Tensor α :=
  if t.ndim = 1 then expandDims1 t else t

/-- `ndarray.astype("float64")`: a fresh cast copy.  The embedding's data is
already exact rationals, so the cast is the identity; the copy is implicit in
the functional embedding. -/
def astype_float64 {α : Type} (t : Tensor α) : Tensor α := t

/-- A value passed to the constructor's `values` parameter: a numeric ndarray,
an object-dtype ndarray of ndarrays, or something that is not an ndarray. -/
inductive NpInput (α : Type) where
  | arr (t : Tensor α)
  | objArr (ts : List (Tensor α))
  | notArray
deriving DecidableEq, Repr

/-- The object-dtype branch of `construct_values`: each rank-1 element is
rank-promoted *in the caller's array* (`values[i] = np.expand_dims(...)`),
then cast and stored.  Returns the caller's array as left behind by the loop,
and the constructed container. -/
def constructValuesObj {α : Type} (ts : List (Tensor α)) :
    List (Tensor α) × Values α :=
  let ts' := ts.map promote
  (ts', .ragged (ts'.map astype_float64))

/-- The numeric-ndarray branch of `construct_values`: rank-promote (a local
rebinding, the caller's array is untouched), then cast and store. -/
def constructValuesArr {α : Type} (t : Tensor α) : Values α :=
  .dense (astype_float64 (promote t))

/-- `Dirichlet.construct_values`: rejects non-ndarray input, otherwise
dispatches on the dtype.  Returns the caller's argument post-call (mutated in
the object-dtype case) together with the constructed container. -/
def construct_values {α : Type} (v : NpInput α) :
    Except String (NpInput α × Values α) :=
  match v with
  | .notArray => .error ":values: must be a :numpy.ndarray:"
  | .arr t => .ok (.arr t, constructValuesArr t)
  | .objArr ts =>
      let r := constructValuesObj ts
      .ok (.objArr r.1, r.2)

/-- Internal re-wrapping `Dirichlet(values=<ndarray>)` on the always-succeeding
numeric path. -/
def npWrapArr {α : Type} (t : Tensor α) : Dirichlet α :=
  ⟨constructValuesArr t⟩

/-- Internal re-wrapping `Dirichlet(values=<object array>)`. -/
def npWrapObj {α : Type} (ts : List (Tensor α)) : Dirichlet α :=
  ⟨(constructValuesObj ts).2⟩

/-- An element of a `dims` list: an integer or an inner list of integers. -/
inductive PyObj where
  | int (n : ℕ)
  | list (l : List ℕ)
deriving DecidableEq, Repr

/-- `isinstance(el, list)`. -/
def PyObj.isList : PyObj → Bool
  | .list _ => true
  | .int _ => false

/-- The integer carried by a flat-list element (only reached when it is one). -/
def PyObj.asInt : PyObj → ℕ
  | .int n => n
  | .list _ => 0

/-- The inner list carried by a list-of-lists element (only reached when it is one). -/
def PyObj.asList : PyObj → List ℕ
  | .list l => l
  | .int n => [n]

/-- The `dims` argument: an integer, a list, or some other Python value. -/
inductive PyDims where
  | int (n : ℕ)
  | list (l : List PyObj)
  | other
deriving DecidableEq, Repr

/-- `np.zeros(s)`: the all-zero tensor of shape `s`. -/
def np_zeros (s : List ℕ) : Tensor ℚ :=
  ⟨s, List.replicate s.prod 0⟩

/-- One element of the ragged zero construction:
`np.zeros([dims[i][0], 1])` when the inner list has length 1, else
`np.zeros(dims[i])`. -/
def raggedZeros (li : List ℕ) : Tensor ℚ :=
  if li.length = 1 then np_zeros [li.headD 0, 1] else np_zeros li

/-- `Dirichlet.construct_dims`: dispatches on the shape of `dims` exactly as
the source does, rejecting mixed int/list lists and non-int non-list input. -/
def construct_dims (dims : PyDims) : Except String (Values ℚ) :=
  match dims with
  | .list l =>
      if l.any PyObj.isList then
        if ¬ l.all PyObj.isList then
          .error ":list: of :dims: must only contains :lists:"
        else
          .ok (.ragged (l.map (fun el => raggedZeros el.asList)))
      else
        let ds := l.map PyObj.asInt
        if ds.length = 1 then .ok (.dense (np_zeros [ds.headD 0, 1]))
        else .ok (.dense (np_zeros ds))
  | .int n => .ok (.dense (np_zeros [n, 1]))
  | .other => .error ":dims: must be either :list: or :int:"

/-- `Dirichlet.__init__(dims, values)`: both set is an error; neither set
yields the `(1,1)` zero dense store; otherwise the respective constructor
runs.  Returns the caller's `values` argument post-call together with the
constructed store. -/
def Dirichlet.init (dims : Option PyDims) (values : Option (NpInput ℚ)) :
    Except String (Option (NpInput ℚ) × Dirichlet ℚ) :=
  match values, dims with
  | some _, some _ => .error "please provide _either_ :dims: or :values:, not both"
  | none, none => .ok (none, ⟨.dense (np_zeros [1, 1])⟩)
  | some v, none => (construct_values v).map (fun r => (some r.1, ⟨r.2⟩))
  | none, some dm => (construct_dims dm).map (fun s => (none, ⟨s⟩))

/-- The floor constant `np.exp(-16)`.  The embedding works over exact
rationals, so the irrational float is represented by a fixed positive rational
of the same magnitude (`1 / 8886111`, with `e^16 ≈ 8886110.52`); the proofs
use only that it is a fixed positive constant. -/
def exp_neg16 : ℚ := 1 / 8886111

/-- Elementwise addition of a constant to a tensor (`array + c`). -/
def Tensor.addConst (t : Tensor ℚ) (c : ℚ) : Tensor ℚ :=
  ⟨t.shape, t.data.map (fun x => x + c)⟩

/-- `self.values += np.exp(-16)`, on either container shape. -/
def Values.addFloor (v : Values ℚ) : Values ℚ :=
  match v with
  | .dense t => .dense (t.addConst exp_neg16)
  | .ragged ts => .ragged (ts.map (fun t => t.addConst exp_neg16))

/-- `Dirichlet.remove_zeros`: in-place floor of every entry.  The returned
store is the mutated receiver. -/
def Dirichlet.remove_zeros (d : Dirichlet ℚ) : Dirichlet ℚ :=
  ⟨d.values.addFloor⟩

/-- `(array == 0.0).any()`. -/
def Tensor.hasZero (t : Tensor ℚ) : Bool :=
  t.data.any (fun x => x == 0)

/-- `Dirichlet.contains_zeros`. -/
def Dirichlet.contains_zeros (d : Dirichlet ℚ) : Bool :=
  match d.values with
  | .dense t => t.hasZero
  | .ragged ts => ts.any Tensor.hasZero

/-- Sum of column `j` along axis 0 (`np.sum(array, axis=0)` at flat column `j`). -/
def Tensor.colSum (t : Tensor ℚ) (j : ℕ) : ℚ :=
  ((List.range t.rows).map (fun i => t.data.getD (i * t.cols + j) 0)).sum

/-- `np.divide(array, column_sums)`: every entry divided by its column's sum,
broadcast along axis 0. -/
def Tensor.npDivCols (t : Tensor ℚ) : Tensor EV :=
  ⟨t.shape, (List.range t.data.length).map
    (fun k => ediv (t.data.getD k 0) (t.colSum (k % t.cols)))⟩

/-- `normed[np.isnan(normed)] = np.divide(1.0, normed.shape[0])`: each NaN
entry is replaced by the uniform value `1 / num_rows`. -/
def Tensor.fixNaN (t : Tensor EV) : Tensor EV :=
  ⟨t.shape, t.data.map (fun e => if e.isNaN then .fin (1 / (t.rows : ℚ)) else e)⟩

/-- The per-tensor body of `Dirichlet.normalize`: divide by column sums, then
repair NaN entries to uniform. -/
def Tensor.normalizeT (t : Tensor ℚ) : Tensor EV :=
  t.npDivCols.fixNaN

/-- `Dirichlet.normalize`: returns the post-call receiver (never written to)
and the new values container, same representation, normalized per tensor. -/
def Dirichlet.normalize (d : Dirichlet ℚ) : Dirichlet ℚ × Values EV :=
  match d.values with
  | .dense t => (d, .dense t.normalizeT)
  | .ragged ts => (d, .ragged (ts.map Tensor.normalizeT))

/-- A value returned either as the raw numpy container or wrapped in a new
store, per the `return_numpy` flag. -/
inductive Ret (α : Type) where
  | numpyRet (v : Values α)
  | storeRet (d : Dirichlet α)
deriving DecidableEq, Repr

/-- The throwaway copy built inside `wnorm`: `A = Dirichlet(values=...)`
(a rank-promoted cast copy of the tensor) floored by `A.remove_zeros()`. -/
def wnormA (t : Tensor ℚ) : Tensor ℚ :=
  (astype_float64 (promote t)).addConst exp_neg16

/-- The per-tensor body of `Dirichlet.wnorm`: on the throwaway floored copy
`A`, `norm = np.divide(1.0, np.sum(A, axis=0))` (one reciprocal per column),
`avg = np.divide(1.0, A)` (elementwise reciprocal), and `wA = norm - avg`
broadcast along axis 0. -/
def Tensor.wnormT (t : Tensor ℚ) : Tensor EV :=
  let A := wnormA t
  let norm : List EV := (List.range A.cols).map (fun j => ediv 1 (A.colSum j))
  let avg : List EV := A.data.map (fun a => ediv 1 a)
  ⟨A.shape, (List.range A.data.length).map
    (fun k => esub (norm.getD (k % A.cols) .nan) (avg.getD k .nan))⟩

/-- `Dirichlet.wnorm(return_numpy)`: per tensor `wnormT`, applied to each
ragged element independently; the receiver is never written to; the result is
returned raw or wrapped per the flag. -/
def Dirichlet.wnorm (d : Dirichlet ℚ) (return_numpy : Bool) :
    Dirichlet ℚ × Ret EV :=
  match d.values with
  | .dense t =>
      let wA := t.wnormT
      (d, if return_numpy then .numpyRet (.dense wA) else .storeRet (npWrapArr wA))
  | .ragged ts =>
      let wA := ts.map Tensor.wnormT
      (d, if return_numpy then .numpyRet (.ragged wA) else .storeRet (npWrapObj wA))

/-- Elementwise `np.log` of a copied tensor. -/
def Tensor.logT (t : Tensor ℚ) : Tensor LogV :=
  ⟨t.shape, t.data.map np_log⟩

/-- The observable outcome of `Dirichlet.log`: the post-call state of the
receiver, whether the zeros-removed warning was issued, and the returned
value. -/
structure LogCall where
  post : Dirichlet ℚ
  warned : Bool
  ret : Ret LogV
deriving DecidableEq, Repr

/-- `Dirichlet.log(return_numpy)`: when the receiver contains zeros it is
repaired in place by `self.remove_zeros()` and a non-fatal warning is issued;
then the elementwise log of the (post-repair) values is taken on copies and
returned raw or wrapped per the flag. -/
def Dirichlet.log (d : Dirichlet ℚ) (return_numpy : Bool) : LogCall :=
  let warned := d.contains_zeros
  let d' := if warned then d.remove_zeros else d
  let lv : Values LogV :=
    match d'.values with
    | .dense t => .dense t.logT
    | .ragged ts => .ragged (ts.map Tensor.logT)
  ⟨d', warned,
    if return_numpy then .numpyRet lv
    else .storeRet (match lv with
      | .dense t => npWrapArr t
      | .ragged ts => npWrapObj ts)⟩

/-- The right-hand operand of an arithmetic dunder: another store or a
numeric scalar. -/
inductive Operand where
  | store (d : Dirichlet ℚ)
  | num (c : ℚ)
deriving DecidableEq, Repr

/-- Elementwise combination of two same-shape tensors. -/
def Tensor.zipOp (f : ℚ → ℚ → ℚ) (t u : Tensor ℚ) : Tensor ℚ :=
  ⟨t.shape, List.zipWith f t.data u.data⟩

/-- Elementwise map over a tensor (scalar broadcast). -/
def Tensor.mapOp (f : ℚ → ℚ) (t : Tensor ℚ) : Tensor ℚ :=
  ⟨t.shape, t.data.map f⟩

/-- `self.values ⊕ other.values` for two containers.  The claims only cover
matching representations; a dense/ragged mix is outside the modelled
fragment, signalled by `none`. -/
def Values.zipV (f : ℚ → ℚ → ℚ) : Values ℚ → Values ℚ → Option (Values ℚ)
  | .dense t, .dense u => some (.dense (t.zipOp f u))
  | .ragged ts, .ragged us => some (.ragged (List.zipWith (Tensor.zipOp f) ts us))
  | _, _ => none

/-- `self.values ⊕ c` for a scalar operand, on either container shape. -/
def Values.mapV (f : ℚ → ℚ) : Values ℚ → Values ℚ
  | .dense t => .dense (t.mapOp f)
  | .ragged ts => .ragged (ts.map (fun t => t.mapOp f))

/-- `Dirichlet(values=...)` applied to a fresh arithmetic result. -/
def npWrapValues (v : Values ℚ) : Dirichlet ℚ :=
  match v with
  | .dense t => npWrapArr t
  | .ragged ts => npWrapObj ts

/-- The observable outcome of an arithmetic dunder call: the post-call states
of both operands and the returned store (`none` outside the modelled
fragment). -/
structure BinCall where
  selfPost : Dirichlet ℚ
  otherPost : Operand
  result : Option (Dirichlet ℚ)
deriving DecidableEq, Repr

/-- Shared body of the six arithmetic dunders: `self.values ⊕ other(.values)`
wrapped in a new store; neither operand is written to. -/
def binOp (f : ℚ → ℚ → ℚ) (d : Dirichlet ℚ) (other : Operand) : BinCall :=
  match other with
  | .store o => ⟨d, other, (Values.zipV f d.values o.values).map npWrapValues⟩
  | .num c => ⟨d, other, some (npWrapValues (d.values.mapV (fun x => f x c)))⟩

/-- `Dirichlet.__add__`: `self.values + other(.values)`, wrapped in a new store. -/
def Dirichlet.addOp (d : Dirichlet ℚ) (other : Operand) : BinCall :=
  binOp (fun a b => a + b) d other

/-- `Dirichlet.__radd__`: its body is identical to `__add__`
(`self.values + other`). -/
def Dirichlet.raddOp (d : Dirichlet ℚ) (other : Operand) : BinCall :=
  binOp (fun a b => a + b) d other

/-- `Dirichlet.__sub__`: `self.values - other(.values)`. -/
def Dirichlet.subOp (d : Dirichlet ℚ) (other : Operand) : BinCall :=
  binOp (fun a b => a - b) d other

/-- `Dirichlet.__rsub__`: its body is identical to `__sub__` — it computes
`self.values - other`, not `other - self.values`. -/
def Dirichlet.rsubOp (d : Dirichlet ℚ) (other : Operand) : BinCall :=
  binOp (fun a b => a - b) d other

/-- `Dirichlet.__mul__`: `self.values * other(.values)`. -/
def Dirichlet.mulOp (d : Dirichlet ℚ) (other : Operand) : BinCall :=
  binOp (fun a b => a * b) d other

/-- `Dirichlet.__rmul__`: its body is identical to `__mul__`. -/
def Dirichlet.rmulOp (d : Dirichlet ℚ) (other : Operand) : BinCall :=
  binOp (fun a b => a * b) d other

/-- An index expression, restricted to the fragment the claims cover:
`s[i]` (one integer) and `s[i, j]` (a pair, on a rank-2 dense tensor). -/
inductive Key where
  | idx (i : ℕ)
  | cell (i j : ℕ)
deriving DecidableEq, Repr

/-- Result of `Dirichlet.__getitem__`: a bare number when the index collapses
to a non-array value, a wrapped store when the result is still array-shaped,
or `invalid` for index patterns outside the modelled fragment (out of range,
tuples into object arrays, ...). -/
inductive GetRet (α : Type) where
  | num (q : α)
  | store (d : Dirichlet α)
  | invalid
deriving DecidableEq, Repr

/-- The sub-tensor `array[i]`: axis 0 is consumed, leaving the `i`-th block of
`cols` entries with the trailing shape. -/
def Tensor.row (t : Tensor ℚ) (i : ℕ) : Tensor ℚ :=
  ⟨t.shape.tail, (List.range t.cols).map (fun j => t.data.getD (i * t.cols + j) 0)⟩

/-- `Dirichlet.__getitem__`: `values = self.values[key]`; an ndarray result is
rank-promoted if rank 1 and wrapped in `Dirichlet(values=values)`, a scalar
result is returned directly. -/
def Dirichlet.getitem (d : Dirichlet ℚ) (k : Key) : GetRet ℚ :=
  match d.values, k with
  | .dense t, .idx i =>
      if t.ndim = 0 ∨ ¬ i < t.rows then .invalid
      else if t.ndim = 1 then .num (t.data.getD i 0)
      else .store ⟨constructValuesArr (promote (t.row i))⟩
  | .dense t, .cell i j =>
      if t.ndim = 2 ∧ i < t.rows ∧ j < t.cols then
        .num (t.data.getD (i * t.cols + j) 0)
      else .invalid
  | .ragged ts, .idx i =>
      match ts[i]? with
      | some t => .store ⟨constructValuesArr (promote t)⟩
      | none => .invalid
  | .ragged _, .cell _ _ => .invalid

/-- The right-hand side of `Dirichlet.__setitem__`: a number, an ndarray, or
another store. -/
inductive SetVal where
  | num (q : ℚ)
  | arr (t : Tensor ℚ)
  | store (d : Dirichlet ℚ)
deriving DecidableEq, Repr

/-- `array[i, j] = q` on a rank-2 tensor. -/
def Tensor.setCell (t : Tensor ℚ) (i j : ℕ) (q : ℚ) : Tensor ℚ :=
  ⟨t.shape, t.data.set (i * t.cols + j) q⟩

/-- `array[i] = xs`: the `i`-th block of `cols` entries is replaced. -/
def Tensor.setRow (t : Tensor ℚ) (i : ℕ) (xs : List ℚ) : Tensor ℚ :=
  ⟨t.shape, t.data.take (i * t.cols) ++ xs ++ t.data.drop (i * t.cols + t.cols)⟩

/-- `Dirichlet.__setitem__`: the right-hand side is unwrapped to its raw
values when it is a store, then `self.values[idx] = value` assigns in place.
Returns the mutated receiver; `none` marks assignments outside the modelled
fragment (shape-mismatched broadcasts, object-array right-hand sides, ...). -/
def Dirichlet.setitem (d : Dirichlet ℚ) (k : Key) (v : SetVal) :
    Option (Dirichlet ℚ) :=
  let v' : SetVal :=
    match v with
    | .store dd =>
        match dd.values with
        | .dense t => .arr t
        | .ragged _ => v
    | _ => v
  match d.values, k, v' with
  | .dense t, .cell i j, .num q =>
      if t.ndim = 2 ∧ i < t.rows ∧ j < t.cols then
        some ⟨.dense (t.setCell i j q)⟩
      else none
  | .dense t, .idx i, .arr u =>
      if 2 ≤ t.ndim ∧ i < t.rows ∧ u.shape = t.shape.tail then
        some ⟨.dense (t.setRow i u.data)⟩
      else none
  | .dense t, .idx i, .num q =>
      if 1 ≤ t.ndim ∧ i < t.rows then
        some ⟨.dense (t.setRow i (List.replicate t.cols q))⟩
      else none
  | .ragged ts, .idx i, .arr u =>
      if i < ts.length then some ⟨.ragged (ts.set i u)⟩ else none
  | _, _, _ => none

/-! Generic list lemmas used throughout. -/

lemma getD_map_range {α : Type} (f : ℕ → α) (n k : ℕ) (d : α) (h : k < n) :
    ((List.range n).map f).getD k d = f k := by
  rw [List.getD_eq_getElem?_getD, List.getElem?_map, List.getElem?_range h]
  rfl

lemma getD_map_of_lt {α β : Type} (f : α → β) (l : List α) (k : ℕ) (d : β) (d' : α)
    (h : k < l.length) : (l.map f).getD k d = f (l.getD k d') := by
  rw [List.getD_eq_getElem?_getD, List.getElem?_map, List.getElem?_eq_getElem h,
    List.getD_eq_getElem?_getD, List.getElem?_eq_getElem h]
  rfl

lemma sum_map_div (l : List ℚ) (s : ℚ) :
    (l.map (fun a => a / s)).sum = l.sum / s := by
  induction l with
  | nil => simp
  | cons a t ih => simp [ih, add_div]

lemma sum_map_add_const (l : List ℚ) (c : ℚ) :
    (l.map (fun x => x + c)).sum = l.sum + l.length * c := by
  induction l with
  | nil => simp
  | cons a t ih =>
      simp only [List.map_cons, List.sum_cons, ih, List.length_cons]
      push_cast
      ring

lemma sum_nonneg_all_zero (l : List ℚ) (h : ∀ x ∈ l, 0 ≤ x) (hs : l.sum = 0) :
    ∀ x ∈ l, x = 0 := by
  induction l with
  | nil => simp
  | cons a t ih =>
      have hts : 0 ≤ t.sum := List.sum_nonneg (fun x hx => h x (by simp [hx]))
      have ha : 0 ≤ a := h a (by simp)
      have hsum : a + t.sum = 0 := by simpa using hs
      have ha0 : a = 0 := le_antisymm (by linarith) ha
      intro x hx
      rcases List.mem_cons.mp hx with rfl | hx'
      · exact ha0
      · exact ih (fun y hy => h y (by simp [hy])) (by linarith) x hx'

lemma idx_block_lt {i j r c : ℕ} (hi : i < r) (hj : j < c) : i * c + j < r * c := by
  calc i * c + j < i * c + c := by omega
    _ = (i + 1) * c := by ring
    _ ≤ r * c := Nat.mul_le_mul_right c hi

lemma block_mod {i j c : ℕ} (hj : j < c) : (i * c + j) % c = j := by
  rw [Nat.mul_comm, Nat.mul_add_mod]
  exact Nat.mod_eq_of_lt hj

lemma forall₂_map_right {α β : Type} (P : α → β → Prop) (f : α → β) (l : List α)
    (h : ∀ x ∈ l, P x (f x)) : List.Forall₂ P l (l.map f) := by
  induction l with
  | nil => exact .nil
  | cons a t ih =>
      exact .cons (h a (by simp)) (ih (fun x hx => h x (by simp [hx])))

/-! Structural facts about well-formed tensors. -/

lemma Tensor.length_eq_rows_mul_cols {α : Type} (t : Tensor α) (hwf : t.wf)
    (hne : t.shape ≠ []) : t.data.length = t.rows * t.cols := by
  rcases t with ⟨shape, data⟩
  cases shape with
  | nil => simp at hne
  | cons s0 rest =>
      simpa [Tensor.wf, Tensor.rows, Tensor.cols] using hwf

/-- The per-tensor statement of claim C4: shape preserved, data shifted by the
floor constant, zero entries becoming exactly the constant. -/
def floorProp (t u : Tensor ℚ) : Prop :=
  u.shape = t.shape ∧
  u.data = t.data.map (fun x => x + exp_neg16) ∧
  ∀ k < t.data.length,
    (t.data.getD k 0 = 0 → u.data.getD k 0 = exp_neg16) ∧
    (t.data.getD k 0 ≠ 0 → u.data.getD k 0 = t.data.getD k 0 + exp_neg16)

lemma floorProp_addConst (t : Tensor ℚ) : floorProp t (t.addConst exp_neg16) := by
  refine ⟨rfl, rfl, fun k hk => ⟨fun h0 => ?_, fun hne => ?_⟩⟩
  · rw [Tensor.addConst, getD_map_of_lt _ _ _ _ 0 hk, h0, zero_add]
  · rw [Tensor.addConst, getD_map_of_lt _ _ _ _ 0 hk]

/-- C4: for every store, in either representation, `remove_zeros()` replaces
the receiver's values by the old values with exactly the constant `e^-16`
added to every stored entry: shapes are untouched, previously-zero entries
become exactly the constant, nonzero entries are shifted by the same additive
constant, and nothing is renormalized. -/
theorem remove_zeros_adds_floor (d : Dirichlet ℚ) :
    match d.values, d.remove_zeros.values with
    | .dense t, .dense u => floorProp t u
    | .ragged ts, .ragged us => List.Forall₂ floorProp ts us
    | _, _ => False := by
  rcases d with ⟨v⟩
  cases v with
  | dense t => exact floorProp_addConst t
  | ragged ts =>
      exact forall₂_map_right _ _ ts (fun t _ => floorProp_addConst t)

lemma map_asInt_int (ds : List ℕ) : (ds.map PyObj.int).map PyObj.asInt = ds := by
  induction ds with
  | nil => rfl
  | cons a t ih => simpa [PyObj.asInt] using ih

/-- C5: construction from `dims` produces exactly the claimed zero-valued
storage: an integer `n` gives a dense `(n, 1)` zero tensor; a flat integer
list of length `> 1` gives a dense zero tensor of that shape; a length-1 list
`[d]` gives shape `(d, 1)`; a list of lists gives a ragged store whose `i`-th
element is resolved from the `i`-th inner list by the same rule.  The final
conjunct records that `np_zeros s` really is the zero tensor of shape `s`. -/
theorem construct_dims_shapes :
    (∀ n : ℕ, construct_dims (.int n) = .ok (.dense (np_zeros [n, 1]))) ∧
    (∀ ds : List ℕ, 1 < ds.length →
      construct_dims (.list (ds.map PyObj.int)) = .ok (.dense (np_zeros ds))) ∧
    (∀ a : ℕ, construct_dims (.list [PyObj.int a]) = .ok (.dense (np_zeros [a, 1]))) ∧
    (∀ ls : List (List ℕ), ls ≠ [] →
      construct_dims (.list (ls.map PyObj.list)) =
        .ok (.ragged (ls.map raggedZeros))) ∧
    (∀ li : List ℕ, raggedZeros li =
      if li.length = 1 then np_zeros [li.headD 0, 1] else np_zeros li) ∧
    (∀ s : List ℕ, (np_zeros s).shape = s ∧ (np_zeros s).wf ∧
      ∀ x ∈ (np_zeros s).data, x = 0) := by
  refine ⟨fun n => rfl, fun ds hlen => ?_, fun a => ?_, fun ls hne => ?_,
    fun li => rfl, fun s => ⟨rfl, by simp [np_zeros, Tensor.wf], ?_⟩⟩
  · have hany : (ds.map PyObj.int).any PyObj.isList = false := by
      simp [List.any_map, PyObj.isList, Function.comp]
    have hmm : (ds.map PyObj.int).map PyObj.asInt = ds := map_asInt_int ds
    simp only [construct_dims, hany, Bool.false_eq_true, if_false, hmm]
    rw [if_neg (by omega)]
  · rfl
  · have hany : (ls.map PyObj.list).any PyObj.isList = true := by
      cases ls with
      | nil => simp at hne
      | cons h t => simp [PyObj.isList]
    have hall : (ls.map PyObj.list).all PyObj.isList = true := by
      simp [List.all_map, PyObj.isList, Function.comp]
    simp [construct_dims, hany, hall, List.map_map, Function.comp, PyObj.asList]
  · intro x hx
    simpa [np_zeros] using List.eq_of_mem_replicate hx

/-- Witness for C5 at the spec's own examples: `dims=[3,4]`, `dims=3` (via the
integer clause), and `dims=[[2],[3,3]]`. -/
theorem construct_dims_shapes_witness :
    1 < ([3, 4] : List ℕ).length ∧ ([[2], [3, 3]] : List (List ℕ)) ≠ [] ∧
    construct_dims (.list (([3, 4] : List ℕ).map PyObj.int)) =
      .ok (.dense (np_zeros [3, 4])) ∧
    construct_dims (.int 3) = .ok (.dense (np_zeros [3, 1])) ∧
    construct_dims (.list (([[2], [3, 3]] : List (List ℕ)).map PyObj.list)) =
      .ok (.ragged (([[2], [3, 3]] : List (List ℕ)).map raggedZeros)) :=
  ⟨by norm_num, by simp,
    construct_dims_shapes.2.1 [3, 4] (by norm_num),
    construct_dims_shapes.1 3,
    construct_dims_shapes.2.2.2.1 [[2], [3, 3]] (by simp)⟩

/-- C6: supplying both `dims` and `values` fails immediately with the
construction error (no store is produced); supplying neither yields the dense
`(1,1)` zero store; a `dims` that is neither an int nor a list fails; and a
list-of-lists `dims` mixing list and non-list elements fails rather than
guessing a representation. -/
theorem init_validation :
    (∀ dm v, Dirichlet.init (some dm) (some v) =
      .error "please provide _either_ :dims: or :values:, not both") ∧
    Dirichlet.init none none = .ok (none, ⟨.dense (np_zeros [1, 1])⟩) ∧
    Dirichlet.init (some .other) none =
      .error ":dims: must be either :list: or :int:" ∧
    (∀ l : List PyObj, (∃ x ∈ l, x.isList = true) → (∃ x ∈ l, x.isList = false) →
      Dirichlet.init (some (.list l)) none =
        .error ":list: of :dims: must only contains :lists:") := by
  refine ⟨fun dm v => rfl, rfl, rfl, fun l hsome hnot => ?_⟩
  have hany : l.any PyObj.isList = true := by
    rcases hsome with ⟨x, hx, hpx⟩
    exact List.any_eq_true.mpr ⟨x, hx, hpx⟩
  have hnall : l.all PyObj.isList = false := by
    rcases hnot with ⟨x, hx, hfx⟩
    refine Bool.eq_false_iff.mpr (fun hall => ?_)
    have hx' := List.all_eq_true.mp hall x hx
    rw [hfx] at hx'
    exact Bool.false_ne_true hx'
  simp [Dirichlet.init, construct_dims, hany, hnall, Except.map]

/-- Witness for C6 at a concrete mixed `dims` list. -/
theorem init_validation_witness :
    (∃ x ∈ [PyObj.int 1, PyObj.list [2]], x.isList = true) ∧
    (∃ x ∈ [PyObj.int 1, PyObj.list [2]], x.isList = false) ∧
    Dirichlet.init (some (.list [PyObj.int 1, PyObj.list [2]])) none =
      .error ":list: of :dims: must only contains :lists:" :=
  ⟨⟨PyObj.list [2], by simp, rfl⟩, ⟨PyObj.int 1, by simp, rfl⟩,
    init_validation.2.2.2 [PyObj.int 1, PyObj.list [2]]
      ⟨PyObj.list [2], by simp, rfl⟩ ⟨PyObj.int 1, by simp, rfl⟩⟩

/-! Facts about re-wrapping used by the arithmetic and indexing claims. -/

lemma promote_data {α : Type} (t : Tensor α) : (promote t).data = t.data := by
  unfold promote expandDims1
  split <;> rfl

lemma constructValuesObj_snd {α : Type} (ts : List (Tensor α)) :
    (constructValuesObj ts).2 = .ragged (ts.map promote) := by
  simp [constructValuesObj, astype_float64]

lemma npWrapObj_values {α : Type} (ts : List (Tensor α)) :
    (npWrapObj ts).values = .ragged (ts.map promote) := by
  simp [npWrapObj, constructValuesObj_snd]

lemma npWrapArr_values {α : Type} (t : Tensor α) :
    (npWrapArr t).values = .dense (promote t) := rfl

lemma npWrapObj_eq {α : Type} (ts : List (Tensor α)) :
    npWrapObj ts = ⟨.ragged (ts.map promote)⟩ := by
  simp [npWrapObj, constructValuesObj_snd]

/-- C7: the arithmetic dunders are pure — neither operand's post-call state
differs from its pre-call state — and elementwise: with a store operand of the
same representation, the result is a new store whose values are the
elementwise combination of the two operands' values; with a numeric operand,
the elementwise combination with the scalar.  The reflected operators of the
commutative operations (add, multiply) return results identical to their
non-reflected counterparts. -/
theorem arithmetic_pure_and_elementwise (a b : Dirichlet ℚ) (c : ℚ) :
    (∀ o : Operand,
      (a.addOp o).selfPost = a ∧ (a.addOp o).otherPost = o ∧
      (a.subOp o).selfPost = a ∧ (a.subOp o).otherPost = o ∧
      (a.mulOp o).selfPost = a ∧ (a.mulOp o).otherPost = o ∧
      (a.raddOp o).selfPost = a ∧ (a.raddOp o).otherPost = o ∧
      (a.rsubOp o).selfPost = a ∧ (a.rsubOp o).otherPost = o ∧
      (a.rmulOp o).selfPost = a ∧ (a.rmulOp o).otherPost = o) ∧
    (∀ ta tb, a.values = .dense ta → b.values = .dense tb →
      (a.addOp (.store b)).result =
        some ⟨.dense (promote (ta.zipOp (fun p q => p + q) tb))⟩ ∧
      (a.subOp (.store b)).result =
        some ⟨.dense (promote (ta.zipOp (fun p q => p - q) tb))⟩ ∧
      (a.mulOp (.store b)).result =
        some ⟨.dense (promote (ta.zipOp (fun p q => p * q) tb))⟩) ∧
    (∀ tsa tsb, a.values = .ragged tsa → b.values = .ragged tsb →
      (a.addOp (.store b)).result =
        some ⟨.ragged ((List.zipWith (Tensor.zipOp (fun p q => p + q)) tsa tsb).map promote)⟩ ∧
      (a.subOp (.store b)).result =
        some ⟨.ragged ((List.zipWith (Tensor.zipOp (fun p q => p - q)) tsa tsb).map promote)⟩ ∧
      (a.mulOp (.store b)).result =
        some ⟨.ragged ((List.zipWith (Tensor.zipOp (fun p q => p * q)) tsa tsb).map promote)⟩) ∧
    (∀ ta, a.values = .dense ta →
      (a.addOp (.num c)).result = some ⟨.dense (promote (ta.mapOp (fun x => x + c)))⟩ ∧
      (a.subOp (.num c)).result = some ⟨.dense (promote (ta.mapOp (fun x => x - c)))⟩ ∧
      (a.mulOp (.num c)).result = some ⟨.dense (promote (ta.mapOp (fun x => x * c)))⟩) ∧
    (∀ (g : ℚ → ℚ → ℚ) (h : ℚ → ℚ) (t u : Tensor ℚ),
      (t.zipOp g u).data = List.zipWith g t.data u.data ∧
      (t.mapOp h).data = t.data.map h ∧ (promote t).data = t.data) ∧
    (∀ o : Operand, a.raddOp o = a.addOp o ∧ a.rmulOp o = a.mulOp o) := by
  refine ⟨?_, ?_, ?_, ?_, ?_, fun o => ⟨rfl, rfl⟩⟩
  · intro o
    cases o <;>
      exact ⟨rfl, rfl, rfl, rfl, rfl, rfl, rfl, rfl, rfl, rfl, rfl, rfl⟩
  · intro ta tb ha hb
    refine ⟨?_, ?_, ?_⟩ <;>
      simp [Dirichlet.addOp, Dirichlet.subOp, Dirichlet.mulOp, binOp, ha, hb,
        Values.zipV, npWrapValues, npWrapArr, constructValuesArr, astype_float64]
  · intro tsa tsb ha hb
    refine ⟨?_, ?_, ?_⟩ <;>
      simp [Dirichlet.addOp, Dirichlet.subOp, Dirichlet.mulOp, binOp, ha, hb,
        Values.zipV, npWrapValues, npWrapObj_eq, List.map_map]
  · intro ta ha
    refine ⟨?_, ?_, ?_⟩ <;>
      simp [Dirichlet.addOp, Dirichlet.subOp, Dirichlet.mulOp, binOp, ha,
        Values.mapV, npWrapValues, npWrapArr, constructValuesArr, astype_float64]
  · intro g h t u
    exact ⟨rfl, rfl, promote_data t⟩

/-- Witness for C7 at two concrete dense stores and the scalar 2. -/
theorem arithmetic_pure_and_elementwise_witness :
    (⟨.dense ⟨[2, 1], [1, 2]⟩⟩ : Dirichlet ℚ).values = .dense ⟨[2, 1], [1, 2]⟩ ∧
    (⟨.dense ⟨[2, 1], [3, 4]⟩⟩ : Dirichlet ℚ).values = .dense ⟨[2, 1], [3, 4]⟩ ∧
    ((⟨.dense ⟨[2, 1], [1, 2]⟩⟩ : Dirichlet ℚ).addOp
        (.store ⟨.dense ⟨[2, 1], [3, 4]⟩⟩)).result =
      some ⟨.dense (promote ((⟨[2, 1], [1, 2]⟩ : Tensor ℚ).zipOp
        (fun p q => p + q) ⟨[2, 1], [3, 4]⟩))⟩ :=
  ⟨rfl, rfl,
    ((arithmetic_pure_and_elementwise ⟨.dense ⟨[2, 1], [1, 2]⟩⟩
      ⟨.dense ⟨[2, 1], [3, 4]⟩⟩ 2).2.1 ⟨[2, 1], [1, 2]⟩ ⟨[2, 1], [3, 4]⟩ rfl rfl).1⟩

/-- C9: `__rsub__` has the same body as `__sub__`: for a numeric operand `x`,
the reflected call produced by `x - a` returns a new store whose values are
`a.values - x` — identical to `a - x` — rather than the operand-order
respecting `x - a.values`. -/
theorem rsub_ignores_operand_order (a : Dirichlet ℚ) (x : ℚ) :
    a.rsubOp (.num x) = a.subOp (.num x) ∧
    (∀ ta, a.values = .dense ta →
      (a.rsubOp (.num x)).result =
        some ⟨.dense (promote (ta.mapOp (fun v => v - x)))⟩) ∧
    (∀ tsa, a.values = .ragged tsa →
      (a.rsubOp (.num x)).result =
        some ⟨.ragged ((tsa.map (Tensor.mapOp (fun v => v - x))).map promote)⟩) := by
  refine ⟨rfl, fun ta ha => ?_, fun tsa ha => ?_⟩
  · simp [Dirichlet.rsubOp, binOp, ha, Values.mapV, npWrapValues, npWrapArr,
      constructValuesArr, astype_float64]
  · simp [Dirichlet.rsubOp, binOp, ha, Values.mapV, npWrapValues,
      npWrapObj_eq, List.map_map]

/-- Witness for C9: `3 - s` on a concrete dense store yields `s.values - 3`. -/
theorem rsub_ignores_operand_order_witness :
    (⟨.dense ⟨[2, 1], [5, 7]⟩⟩ : Dirichlet ℚ).values = .dense ⟨[2, 1], [5, 7]⟩ ∧
    ((⟨.dense ⟨[2, 1], [5, 7]⟩⟩ : Dirichlet ℚ).rsubOp (.num 3)).result =
      some ⟨.dense (promote ((⟨[2, 1], [5, 7]⟩ : Tensor ℚ).mapOp (fun v => v - 3)))⟩ :=
  ⟨rfl, (rsub_ignores_operand_order ⟨.dense ⟨[2, 1], [5, 7]⟩⟩ 3).2.1
    ⟨[2, 1], [5, 7]⟩ rfl⟩

/-- C10: constructing a store from an object-dtype collection whose `i`-th
element is rank-1 mutates the caller's collection: the rank-promoted
column-shaped element is written back into slot `i` of the argument before
being cast and stored, so after construction the caller's collection differs
from what was passed in. -/
theorem construct_values_mutates_caller (ts : List (Tensor ℚ)) (i n : ℕ)
    (xs : List ℚ) (hi : ts[i]? = some ⟨[n], xs⟩) :
    construct_values (.objArr ts) =
      .ok (.objArr (ts.map promote), .ragged (ts.map promote)) ∧
    (ts.map promote)[i]? = some ⟨[n, 1], xs⟩ ∧
    ts[i]? ≠ (ts.map promote)[i]? := by
  have hmap : (ts.map promote)[i]? = some ⟨[n, 1], xs⟩ := by
    rw [List.getElem?_map, hi]
    rfl
  refine ⟨?_, hmap, ?_⟩
  · simp [construct_values, constructValuesObj, astype_float64]
  · rw [hi, hmap]
    intro h
    have := (Option.some.injEq _ _).mp h
    exact absurd (congrArg Tensor.shape this) (by simp)

/-- Witness for C10 at a concrete two-element collection whose first element
is a rank-1 vector. -/
theorem construct_values_mutates_caller_witness :
    ([(⟨[2], [1, 2]⟩ : Tensor ℚ), ⟨[3, 3], List.replicate 9 0⟩][0]? =
      some ⟨[2], [1, 2]⟩) ∧
    [(⟨[2], [1, 2]⟩ : Tensor ℚ), ⟨[3, 3], List.replicate 9 0⟩][0]? ≠
      ([(⟨[2], [1, 2]⟩ : Tensor ℚ), ⟨[3, 3], List.replicate 9 0⟩].map promote)[0]? :=
  ⟨rfl, (construct_values_mutates_caller
    [⟨[2], [1, 2]⟩, ⟨[3, 3], List.replicate 9 0⟩] 0 2 [1, 2] rfl).2.2⟩

/-! Lemmas for the indexing claim. -/

lemma getD_set_self (l : List ℚ) (p : ℕ) (q : ℚ) (hp : p < l.length) :
    (l.set p q).getD p 0 = q := by
  rw [List.getD_eq_getElem?_getD, List.getElem?_set_self hp]
  rfl

lemma getD_append_middle {α : Type} (A xs B : List α) (j : ℕ) (d : α)
    (hj : j < xs.length) : (A ++ xs ++ B).getD (A.length + j) d = xs.getD j d := by
  rw [List.append_assoc, List.getD_eq_getElem?_getD,
    List.getElem?_append_right (by omega)]
  have h2 : (xs ++ B)[A.length + j - A.length]? = (xs ++ B)[j]? := by
    congr 1
    omega
  rw [h2, List.getElem?_append]
  simp [hj, List.getD_eq_getElem?_getD]

lemma map_getD_range_self {α : Type} (l : List α) (d : α) :
    (List.range l.length).map (fun j => l.getD j d) = l := by
  apply List.ext_getElem
  · simp
  · intro n h1 h2
    simp only [List.getElem_map, List.getElem_range]
    rw [List.getD_eq_getElem?_getD, List.getElem?_eq_getElem h2]
    rfl

lemma promote_id_of_ndim {α : Type} (t : Tensor α) (h : t.ndim ≠ 1) :
    promote t = t := by
  unfold promote
  rw [if_neg h]

/-- C8: reading `s[key]` returns the underlying number directly when the
indexing result is not array-shaped (`s[i, j]` on a rank-2 dense tensor), and
otherwise returns the sub-tensor rank-promoted and wrapped in a new store
(`s[i]` on a dense tensor, or a ragged element); writing `s[i] = v` assigns
into the underlying values in place — unwrapping `v`'s raw values first when
`v` is a store — without changing the representation tag, and a subsequent
read of the same index retrieves a value structurally equivalent to `v`
(rank-promoted, entries unchanged). -/
theorem getitem_setitem_roundtrip (d : Dirichlet ℚ) (q : ℚ) :
    (∀ t r c i j, d.values = .dense t → t.shape = [r, c] → i < r → j < c →
      d.getitem (.cell i j) = .num (t.data.getD (i * c + j) 0)) ∧
    (∀ t r c i, d.values = .dense t → t.shape = [r, c] → i < r →
      d.getitem (.idx i) =
        .store ⟨.dense ⟨[c, 1],
          (List.range c).map (fun j => t.data.getD (i * c + j) 0)⟩⟩) ∧
    (∀ ts t i, d.values = .ragged ts → ts[i]? = some t → 2 ≤ t.ndim →
      d.getitem (.idx i) = .store ⟨.dense t⟩) ∧
    (∀ t r c i j, d.values = .dense t → t.shape = [r, c] → i < r → j < c →
      ∃ d', d.setitem (.cell i j) (.num q) = some d' ∧
        d'.IS_AOA = d.IS_AOA ∧
        d'.values = .dense (t.setCell i j q) ∧
        (t.wf → d'.getitem (.cell i j) = .num q)) ∧
    (∀ ts i u, d.values = .ragged ts → i < ts.length →
      ∃ d', d.setitem (.idx i) (.store ⟨.dense u⟩) = some d' ∧
        d'.IS_AOA = d.IS_AOA ∧
        d'.values = .ragged (ts.set i u) ∧
        (2 ≤ u.ndim → d'.getitem (.idx i) = .store ⟨.dense u⟩)) ∧
    (∀ t r c i xs, d.values = .dense t → t.shape = [r, c] → i < r →
      xs.length = c → t.wf →
      ∃ d', d.setitem (.idx i) (.arr ⟨[c], xs⟩) = some d' ∧
        d'.IS_AOA = d.IS_AOA ∧
        d'.values = .dense (t.setRow i xs) ∧
        d'.getitem (.idx i) = .store ⟨.dense ⟨[c, 1], xs⟩⟩) := by
  refine ⟨?_, ?_, ?_, ?_, ?_, ?_⟩
  · intro t r c i j hv ht hi hj
    have hc : t.cols = c := by simp [Tensor.cols, ht]
    have hcond : t.ndim = 2 ∧ i < t.rows ∧ j < t.cols := by
      exact ⟨by simp [Tensor.ndim, ht], by simpa [Tensor.rows, ht] using hi,
        by simpa [hc] using hj⟩
    simp only [Dirichlet.getitem, hv]
    rw [if_pos hcond, hc]
  · intro t r c i hv ht hi
    have hc : t.cols = c := by simp [Tensor.cols, ht]
    have hnd : t.ndim = 2 := by simp [Tensor.ndim, ht]
    have hnot : ¬ (t.ndim = 0 ∨ ¬ i < t.rows) := by
      simp [hnd, Tensor.rows, ht, hi]
    simp only [Dirichlet.getitem, hv]
    rw [if_neg hnot, if_neg (by omega : ¬ t.ndim = 1)]
    have hrow : t.row i =
        ⟨[c], (List.range c).map (fun j => t.data.getD (i * c + j) 0)⟩ := by
      simp [Tensor.row, ht, hc]
    rw [hrow]
    have hp : promote (⟨[c], (List.range c).map
        (fun j => t.data.getD (i * c + j) 0)⟩ : Tensor ℚ) =
        ⟨[c, 1], (List.range c).map (fun j => t.data.getD (i * c + j) 0)⟩ := by
      simp [promote, Tensor.ndim, expandDims1]
    rw [hp]
    have hp2 : promote (⟨[c, 1], (List.range c).map
        (fun j => t.data.getD (i * c + j) 0)⟩ : Tensor ℚ) =
        ⟨[c, 1], (List.range c).map (fun j => t.data.getD (i * c + j) 0)⟩ :=
      promote_id_of_ndim _ (by simp [Tensor.ndim])
    simp only [constructValuesArr, astype_float64]
    rw [hp2]
  · intro ts t i hv hi hnd
    have hp : promote t = t := promote_id_of_ndim t (by omega)
    simp only [Dirichlet.getitem, hv, hi, hp, constructValuesArr, astype_float64]
  · intro t r c i j hv ht hi hj
    have hc : t.cols = c := by simp [Tensor.cols, ht]
    have hcond : t.ndim = 2 ∧ i < t.rows ∧ j < t.cols := by
      exact ⟨by simp [Tensor.ndim, ht], by simpa [Tensor.rows, ht] using hi,
        by simpa [hc] using hj⟩
    refine ⟨⟨.dense (t.setCell i j q)⟩, ?_, ?_, rfl, ?_⟩
    · simp only [Dirichlet.setitem, hv]
      rw [if_pos hcond]
    · simp [Dirichlet.IS_AOA, hv]
    · intro hwf
      have hcond' : (t.setCell i j q).ndim = 2 ∧ i < (t.setCell i j q).rows ∧
          j < (t.setCell i j q).cols := by
        simpa [Tensor.setCell, Tensor.ndim, Tensor.rows, Tensor.cols] using hcond
      have hc' : (t.setCell i j q).cols = c := by
        simpa [Tensor.setCell, Tensor.cols] using hc
      simp only [Dirichlet.getitem]
      rw [if_pos hcond', hc']
      have hlen : i * c + j < t.data.length := by
        have hd : t.data.length = r * c := by
          simpa [Tensor.wf, ht] using hwf
        rw [hd]
        exact idx_block_lt hi hj
      simp only [Tensor.setCell, hc]
      rw [getD_set_self t.data (i * c + j) q hlen]
  · intro ts i u hv hi
    refine ⟨⟨.ragged (ts.set i u)⟩, ?_, ?_, rfl, ?_⟩
    · simp only [Dirichlet.setitem, hv]
      rw [if_pos hi]
    · simp [Dirichlet.IS_AOA, hv]
    · intro hnd
      have hset : (ts.set i u)[i]? = some u := by
        rw [List.getElem?_set_self (by simpa using hi)]
      have hp : promote u = u := promote_id_of_ndim u (by omega)
      simp only [Dirichlet.getitem, hset, hp, constructValuesArr, astype_float64]
  · intro t r c i xs hv ht hi hlen hwf
    have hc : t.cols = c := by simp [Tensor.cols, ht]
    have hnd : t.ndim = 2 := by simp [Tensor.ndim, ht]
    have hcond : 2 ≤ t.ndim ∧ i < t.rows ∧
        (⟨[c], xs⟩ : Tensor ℚ).shape = t.shape.tail := by
      exact ⟨by omega, by simpa [Tensor.rows, ht] using hi, by simp [ht]⟩
    refine ⟨⟨.dense (t.setRow i xs)⟩, ?_, ?_, rfl, ?_⟩
    · simp only [Dirichlet.setitem, hv]
      rw [if_pos hcond]
    · simp [Dirichlet.IS_AOA, hv]
    · have hdlen : t.data.length = r * c := by
        simpa [Tensor.wf, ht] using hwf
      have htake : (t.data.take (i * t.cols)).length = i * c := by
        rw [List.length_take, hc, hdlen]
        have : i * c ≤ r * c := Nat.mul_le_mul_right c (le_of_lt hi)
        omega
      have hrdata : ∀ j, j < c →
          (t.setRow i xs).data.getD (i * c + j) 0 = xs.getD j 0 := by
        intro j hj
        simp only [Tensor.setRow]
        have he : i * c + j = (t.data.take (i * t.cols)).length + j := by
          rw [htake]
        rw [he, getD_append_middle _ _ _ _ _ (by omega)]
      have hcols : (t.setRow i xs).cols = c := by
        simp [Tensor.setRow, Tensor.cols, ht]
      have hrow : (t.setRow i xs).row i = ⟨[c], xs⟩ := by
        simp only [Tensor.row, hcols]
        refine congrArg₂ Tensor.mk ?_ ?_
        · simp [Tensor.setRow, ht]
        · calc (List.range c).map (fun j => (t.setRow i xs).data.getD (i * c + j) 0)
              = (List.range c).map (fun j => xs.getD j 0) :=
                List.map_congr_left (fun j hj => hrdata j (List.mem_range.mp hj))
            _ = xs := by
                rw [← hlen]
                exact map_getD_range_self xs 0
      have hnot : ¬ ((t.setRow i xs).ndim = 0 ∨ ¬ i < (t.setRow i xs).rows) := by
        simp [Tensor.setRow, Tensor.ndim, Tensor.rows, ht, hi]
      have hnd' : (t.setRow i xs).ndim = 2 := by
        simp [Tensor.setRow, Tensor.ndim, ht]
      simp only [Dirichlet.getitem]
      rw [if_neg hnot, if_neg (by omega : ¬ (t.setRow i xs).ndim = 1), hrow]
      have hp : promote (⟨[c], xs⟩ : Tensor ℚ) = ⟨[c, 1], xs⟩ := by
        simp [promote, Tensor.ndim, expandDims1]
      rw [hp]
      have hp2 : promote (⟨[c, 1], xs⟩ : Tensor ℚ) = ⟨[c, 1], xs⟩ :=
        promote_id_of_ndim _ (by simp [Tensor.ndim])
      simp only [constructValuesArr, astype_float64]
      rw [hp2]

/-- Witness for C8: the cell write/read round trip on a concrete 2×2 store. -/
theorem getitem_setitem_roundtrip_witness :
    (⟨.dense ⟨[2, 2], [1, 2, 3, 4]⟩⟩ : Dirichlet ℚ).values =
      .dense ⟨[2, 2], [1, 2, 3, 4]⟩ ∧
    (∃ d', (⟨.dense ⟨[2, 2], [1, 2, 3, 4]⟩⟩ : Dirichlet ℚ).setitem
        (.cell 0 1) (.num 9) = some d' ∧
      d'.IS_AOA = (⟨.dense ⟨[2, 2], [1, 2, 3, 4]⟩⟩ : Dirichlet ℚ).IS_AOA ∧
      d'.values = .dense ((⟨[2, 2], [1, 2, 3, 4]⟩ : Tensor ℚ).setCell 0 1 9) ∧
      ((⟨[2, 2], [1, 2, 3, 4]⟩ : Tensor ℚ).wf →
        d'.getitem (.cell 0 1) = .num 9)) :=
  ⟨rfl, (getitem_setitem_roundtrip ⟨.dense ⟨[2, 2], [1, 2, 3, 4]⟩⟩ 9).2.2.2.1
    ⟨[2, 2], [1, 2, 3, 4]⟩ 2 2 0 1 rfl rfl (by norm_num) (by norm_num)⟩

/-! Lemmas for the normalize claim. -/

lemma getD_eq_getElem' {α : Type} (l : List α) (k : ℕ) (d : α) (h : k < l.length) :
    l.getD k d = l[k] := by
  rw [List.getD_eq_getElem?_getD, List.getElem?_eq_getElem h]
  rfl

lemma shape_ne_nil_of_rows_pos {α : Type} (t : Tensor α) (h : 0 < t.rows) :
    t.shape ≠ [] := by
  intro h0
  rw [Tensor.rows, h0] at h
  simp at h

lemma npDivCols_len (t : Tensor ℚ) : (t.npDivCols).data.length = t.data.length := by
  simp [Tensor.npDivCols]

lemma npDivCols_entry (t : Tensor ℚ) (k : ℕ) (hk : k < t.data.length) :
    (t.npDivCols).data.getD k .nan = ediv (t.data.getD k 0) (t.colSum (k % t.cols)) := by
  simp only [Tensor.npDivCols]
  exact getD_map_range _ _ _ _ hk

lemma normalizeT_entry (t : Tensor ℚ) (k : ℕ) (hk : k < t.data.length) :
    t.normalizeT.data.getD k .nan =
      if (ediv (t.data.getD k 0) (t.colSum (k % t.cols))).isNaN then
        EV.fin (1 / (t.rows : ℚ))
      else ediv (t.data.getD k 0) (t.colSum (k % t.cols)) := by
  have hlen : k < (t.npDivCols).data.length := by
    rw [npDivCols_len]
    exact hk
  have h1 : t.normalizeT.data.getD k .nan =
      (fun e => if e.isNaN then EV.fin (1 / ((t.npDivCols).rows : ℚ)) else e)
        ((t.npDivCols).data.getD k .nan) := by
    simp only [Tensor.normalizeT, Tensor.fixNaN]
    exact getD_map_of_lt _ _ k EV.nan EV.nan hlen
  rw [h1, npDivCols_entry t k hk]
  exact rfl

lemma colSum_zero_entries (t : Tensor ℚ) (hwf : t.wf) (hnn : t.nonneg) (j : ℕ)
    (hj : j < t.cols) (hs : t.colSum j = 0) :
    ∀ i, i < t.rows → t.data.getD (i * t.cols + j) 0 = 0 := by
  intro i hi
  have hmem : t.data.getD (i * t.cols + j) 0 ∈
      (List.range t.rows).map (fun i => t.data.getD (i * t.cols + j) 0) :=
    List.mem_map.mpr ⟨i, List.mem_range.mpr hi, rfl⟩
  refine sum_nonneg_all_zero _ ?_ hs _ hmem
  intro x hx
  rcases List.mem_map.mp hx with ⟨i', hi', rfl⟩
  have hi'' := List.mem_range.mp hi'
  have hne : t.shape ≠ [] :=
    shape_ne_nil_of_rows_pos t (lt_of_le_of_lt (Nat.zero_le i') hi'')
  have hlt : i' * t.cols + j < t.data.length := by
    rw [t.length_eq_rows_mul_cols hwf hne]
    exact idx_block_lt hi'' hj
  rw [getD_eq_getElem' _ _ _ hlt]
  exact hnn _ (List.getElem_mem hlt)

/-- The per-tensor statement of claim C1 on a tensor with nonnegative entries:
shape preserved; each entry of a column with nonzero sum is the exact quotient
by that sum; each entry of a zero-sum column is the uniform `1/num_rows`;
every nonzero-sum column of quotients sums to exactly 1; the result holds no
NaN. -/
def normProp (t : Tensor ℚ) (u : Tensor EV) : Prop :=
  u.shape = t.shape ∧
  (∀ i j, i < t.rows → j < t.cols →
    (t.colSum j ≠ 0 →
      u.data.getD (i * t.cols + j) .nan =
        .fin (t.data.getD (i * t.cols + j) 0 / t.colSum j)) ∧
    (t.colSum j = 0 →
      u.data.getD (i * t.cols + j) .nan = .fin (1 / (t.rows : ℚ)))) ∧
  (∀ j, j < t.cols → t.colSum j ≠ 0 →
    ((List.range t.rows).map
      (fun i => t.data.getD (i * t.cols + j) 0 / t.colSum j)).sum = 1) ∧
  (∀ e ∈ u.data, e ≠ .nan)

lemma normProp_of (t : Tensor ℚ) (hwf : t.wf) (hnn : t.nonneg) :
    normProp t t.normalizeT := by
  refine ⟨rfl, ?_, ?_, ?_⟩
  · intro i j hi hj
    have hne : t.shape ≠ [] :=
      shape_ne_nil_of_rows_pos t (lt_of_le_of_lt (Nat.zero_le i) hi)
    have hk : i * t.cols + j < t.data.length := by
      rw [t.length_eq_rows_mul_cols hwf hne]
      exact idx_block_lt hi hj
    have hmod : (i * t.cols + j) % t.cols = j := block_mod hj
    constructor
    · intro hs
      rw [normalizeT_entry t _ hk, hmod]
      simp [ediv, hs, EV.isNaN]
    · intro hs
      have ha : t.data.getD (i * t.cols + j) 0 = 0 :=
        colSum_zero_entries t hwf hnn j hj hs i hi
      rw [normalizeT_entry t _ hk, hmod, ha, hs]
      simp [ediv, EV.isNaN]
  · intro j hj hs
    have hcomp : (List.range t.rows).map
        (fun i => t.data.getD (i * t.cols + j) 0 / t.colSum j) =
        ((List.range t.rows).map
          (fun i => t.data.getD (i * t.cols + j) 0)).map
          (fun x => x / t.colSum j) := by
      rw [List.map_map]
      rfl
    rw [hcomp, sum_map_div]
    exact div_self hs
  · intro e he
    simp only [Tensor.normalizeT, Tensor.fixNaN] at he
    rcases List.mem_map.mp he with ⟨e', _, rfl⟩
    by_cases hn : e'.isNaN
    · simp [hn]
    · have hne : e' ≠ EV.nan := by
        cases e' <;> simp_all [EV.isNaN]
      simpa [hn] using hne

/-- C1 (amended): for every well-formed store with nonnegative entries,
`normalize()` leaves the receiver untouched and returns a new values
container of the same representation in which, per tensor, every column with
nonzero sum is divided elementwise by that sum (and then sums to exactly 1),
every zero-sum (hence all-zero) column is replaced entirely by the uniform
`1/num_rows`, and the result contains no NaN; in Ragged mode the rule applies
independently to each element.  The amendment restricts the zero-sum clause
to nonnegative stores: with mixed-sign entries a zero-sum column divides to
`±inf`, which is not NaN and is not replaced (see the counterexample). -/
theorem normalize_columns (d : Dirichlet ℚ) (hwf : d.wfD) (hnn : d.nonnegD) :
    (d.normalize).1 = d ∧
    (match d.values, (d.normalize).2 with
      | .dense t, .dense u => normProp t u
      | .ragged ts, .ragged us => List.Forall₂ normProp ts us
      | _, _ => False) := by
  rcases d with ⟨v⟩
  cases v with
  | dense t => exact ⟨rfl, normProp_of t hwf hnn⟩
  | ragged ts =>
      exact ⟨rfl, forall₂_map_right _ _ ts
        (fun t ht => normProp_of t (hwf t ht) (hnn t ht))⟩

/-- C1 counterexample: on the store `[[1], [-1]]` the single column sums to
exactly 0, yet `normalize()` returns `[inf, -inf]` — not the uniform column
`[1/2, 1/2]` the claim requires for every zero-sum column.  The uniform
repair only catches `0/0 = NaN` entries; nonzero entries of a zero-sum column
divide to `±inf` and are kept. -/
theorem normalize_zero_sum_counterexample :
    Tensor.colSum ⟨[2, 1], [1, -1]⟩ 0 = 0 ∧
    (Dirichlet.normalize ⟨.dense ⟨[2, 1], [(1 : ℚ), -1]⟩⟩).2 =
      .dense ⟨[2, 1], [.pinf, .ninf]⟩ ∧
    (Dirichlet.normalize ⟨.dense ⟨[2, 1], [(1 : ℚ), -1]⟩⟩).2 ≠
      .dense ⟨[2, 1], [.fin (1 / 2), .fin (1 / 2)]⟩ := by
  refine ⟨?_, ?_, ?_⟩ <;>
    norm_num [Dirichlet.normalize, Tensor.normalizeT, Tensor.npDivCols,
      Tensor.fixNaN, Tensor.colSum, Tensor.rows, Tensor.cols, ediv, EV.isNaN,
      List.range_succ]
  intro h
  exact EV.noConfusion h

/-- Witness for C1 at the spec's own scenario `[[0, 2], [4, 0]]`. -/
theorem normalize_columns_witness :
    (⟨.dense ⟨[2, 2], [0, 2, 4, 0]⟩⟩ : Dirichlet ℚ).wfD ∧
    (⟨.dense ⟨[2, 2], [0, 2, 4, 0]⟩⟩ : Dirichlet ℚ).nonnegD ∧
    ((⟨.dense ⟨[2, 2], [0, 2, 4, 0]⟩⟩ : Dirichlet ℚ).normalize).1 =
      ⟨.dense ⟨[2, 2], [0, 2, 4, 0]⟩⟩ ∧
    normProp ⟨[2, 2], [0, 2, 4, 0]⟩ (Tensor.normalizeT ⟨[2, 2], [0, 2, 4, 0]⟩) := by
  have hwf : (⟨.dense ⟨[2, 2], [0, 2, 4, 0]⟩⟩ : Dirichlet ℚ).wfD := by
    norm_num [Dirichlet.wfD, Tensor.wf]
  have hnn : (⟨.dense ⟨[2, 2], [0, 2, 4, 0]⟩⟩ : Dirichlet ℚ).nonnegD := by
    norm_num [Dirichlet.nonnegD, Tensor.nonneg]
  have h := normalize_columns ⟨.dense ⟨[2, 2], [0, 2, 4, 0]⟩⟩ hwf hnn
  exact ⟨hwf, hnn, h.1, h.2⟩

/-! Lemmas for the wnorm claim. -/

lemma exp_neg16_pos : 0 < exp_neg16 := by
  norm_num [exp_neg16]

lemma promote_rows {α : Type} (t : Tensor α) : (promote t).rows = t.rows := by
  unfold promote
  split
  · rename_i h
    rcases t with ⟨s, dt⟩
    cases s with
    | nil => simp [Tensor.ndim] at h
    | cons a s' =>
        cases s' with
        | nil => rfl
        | cons b s'' => simp [Tensor.ndim] at h
  · rfl

lemma promote_cols {α : Type} (t : Tensor α) : (promote t).cols = t.cols := by
  unfold promote
  split
  · rename_i h
    rcases t with ⟨s, dt⟩
    cases s with
    | nil => simp [Tensor.ndim] at h
    | cons a s' =>
        cases s' with
        | nil => simp [Tensor.cols, expandDims1]
        | cons b s'' => simp [Tensor.ndim] at h
  · rfl

lemma promote_wf {α : Type} (t : Tensor α) (h : t.wf) : (promote t).wf := by
  unfold promote
  split
  · simp only [Tensor.wf, expandDims1, List.prod_append]
    simpa [Tensor.wf] using h
  · exact h

lemma wnormA_data (t : Tensor ℚ) :
    (wnormA t).data = t.data.map (fun x => x + exp_neg16) := by
  simp [wnormA, Tensor.addConst, astype_float64, promote_data]

lemma wnormA_len (t : Tensor ℚ) : (wnormA t).data.length = t.data.length := by
  rw [wnormA_data]
  simp

lemma wnormA_rows (t : Tensor ℚ) : (wnormA t).rows = t.rows := by
  have h1 : (wnormA t).shape = (promote t).shape := rfl
  rw [Tensor.rows, h1, ← Tensor.rows, promote_rows]

lemma wnormA_cols (t : Tensor ℚ) : (wnormA t).cols = t.cols := by
  have h1 : (wnormA t).shape = (promote t).shape := rfl
  rw [Tensor.cols, h1, ← Tensor.cols, promote_cols]

lemma wnormA_wf (t : Tensor ℚ) (h : t.wf) : (wnormA t).wf := by
  have hp := promote_wf t h
  simpa [Tensor.wf, wnormA, astype_float64, Tensor.addConst] using hp

lemma wnormA_entry (t : Tensor ℚ) (k : ℕ) (hk : k < t.data.length) :
    (wnormA t).data.getD k 0 = t.data.getD k 0 + exp_neg16 := by
  rw [wnormA_data]
  exact getD_map_of_lt _ _ _ _ 0 hk

lemma wnormA_colSum (t : Tensor ℚ) (hwf : t.wf) (j : ℕ) (hj : j < t.cols)
    (hr : 0 < t.rows) :
    (wnormA t).colSum j = t.colSum j + t.rows * exp_neg16 := by
  rw [Tensor.colSum, wnormA_rows, wnormA_cols]
  have hmap : (List.range t.rows).map (fun i => (wnormA t).data.getD (i * t.cols + j) 0)
      = ((List.range t.rows).map (fun i => t.data.getD (i * t.cols + j) 0)).map
        (fun x => x + exp_neg16) := by
    rw [List.map_map]
    apply List.map_congr_left
    intro i hi
    have hik : i * t.cols + j < t.data.length := by
      rw [t.length_eq_rows_mul_cols hwf (shape_ne_nil_of_rows_pos t hr)]
      exact idx_block_lt (List.mem_range.mp hi) hj
    exact wnormA_entry t _ hik
  rw [hmap, sum_map_add_const]
  simp [Tensor.colSum]

lemma colSum_nonneg (t : Tensor ℚ) (hnn : t.nonneg) (j : ℕ) : 0 ≤ t.colSum j := by
  apply List.sum_nonneg
  intro x hx
  rcases List.mem_map.mp hx with ⟨i, _, rfl⟩
  by_cases h : i * t.cols + j < t.data.length
  · rw [getD_eq_getElem' _ _ _ h]
    exact hnn _ (List.getElem_mem h)
  · rw [List.getD_eq_getElem?_getD, List.getElem?_eq_none (by omega)]
    rfl

lemma wnormT_entry (t : Tensor ℚ) (hwf : t.wf) (i j : ℕ) (hi : i < t.rows)
    (hj : j < t.cols) :
    (t.wnormT).data.getD (i * t.cols + j) .nan =
      esub (ediv 1 ((wnormA t).colSum j))
        (ediv 1 ((wnormA t).data.getD (i * t.cols + j) 0)) := by
  have hr : 0 < t.rows := lt_of_le_of_lt (Nat.zero_le i) hi
  have hne : t.shape ≠ [] := shape_ne_nil_of_rows_pos t hr
  have hkt : i * t.cols + j < t.data.length := by
    rw [t.length_eq_rows_mul_cols hwf hne]
    exact idx_block_lt hi hj
  have hkA : i * t.cols + j < (wnormA t).data.length := by
    rw [wnormA_len]
    exact hkt
  have hjA : j < (wnormA t).cols := by
    rw [wnormA_cols]
    exact hj
  simp only [Tensor.wnormT]
  rw [getD_map_range _ _ _ _ hkA, wnormA_cols, block_mod hj,
    getD_map_range _ _ _ _ hj, getD_map_of_lt _ _ _ _ 0 hkA]

/-- The per-tensor statement of claim C2: with `A` the rank-promoted floored
copy of the tensor (`wnormA`), the result has `A`'s shape and size, and every
entry at flat index `i*cols + j` equals `1/s_j − 1/A[i,j]` in extended IEEE
arithmetic, where `s_j` is the column sum of `A`; when the original entries
are all nonnegative this value is the exact finite rational
`1/s_j − 1/A[i,j]`. -/
def wnormProp (t : Tensor ℚ) (w : Tensor EV) : Prop :=
  w.shape = (wnormA t).shape ∧
  w.data.length = (wnormA t).data.length ∧
  (∀ i j, i < t.rows → j < t.cols →
    w.data.getD (i * t.cols + j) .nan =
      esub (ediv 1 ((wnormA t).colSum j))
        (ediv 1 ((wnormA t).data.getD (i * t.cols + j) 0))) ∧
  (t.nonneg → ∀ i j, i < t.rows → j < t.cols →
    w.data.getD (i * t.cols + j) .nan =
      .fin (1 / (wnormA t).colSum j -
        1 / (wnormA t).data.getD (i * t.cols + j) 0))

lemma wnormProp_of (t : Tensor ℚ) (hwf : t.wf) : wnormProp t t.wnormT := by
  refine ⟨rfl, by simp [Tensor.wnormT], fun i j hi hj => wnormT_entry t hwf i j hi hj, ?_⟩
  intro hnn i j hi hj
  have hr : 0 < t.rows := lt_of_le_of_lt (Nat.zero_le i) hi
  have hne : t.shape ≠ [] := shape_ne_nil_of_rows_pos t hr
  have hkt : i * t.cols + j < t.data.length := by
    rw [t.length_eq_rows_mul_cols hwf hne]
    exact idx_block_lt hi hj
  have ha0 : 0 ≤ t.data.getD (i * t.cols + j) 0 := by
    rw [getD_eq_getElem' _ _ _ hkt]
    exact hnn _ (List.getElem_mem hkt)
  have hapos : 0 < (wnormA t).data.getD (i * t.cols + j) 0 := by
    rw [wnormA_entry t _ hkt]
    have := exp_neg16_pos
    linarith
  have hspos : 0 < (wnormA t).colSum j := by
    rw [wnormA_colSum t hwf j hj hr]
    have h1 : 0 ≤ t.colSum j := colSum_nonneg t hnn j
    have h2 : (0 : ℚ) < t.rows * exp_neg16 := by
      apply mul_pos _ exp_neg16_pos
      exact_mod_cast hr
    linarith
  rw [wnormT_entry t hwf i j hi hj]
  have h1 : ediv 1 ((wnormA t).colSum j) = .fin (1 / (wnormA t).colSum j) := by
    unfold ediv
    rw [if_pos (ne_of_gt hspos)]
  have h2 : ediv 1 ((wnormA t).data.getD (i * t.cols + j) 0) =
      .fin (1 / (wnormA t).data.getD (i * t.cols + j) 0) := by
    unfold ediv
    rw [if_pos (ne_of_gt hapos)]
  rw [h1, h2]
  rfl

/-- C2: `wnorm()` leaves the receiver unchanged (the floor is applied to a
throwaway copy) and computes, per tensor — independently per element in
Ragged mode — the tensor `wA` with `wA[i,j] = 1/s_j − 1/A[i,j]`, where `A` is
the floored concentration tensor and `s_j` its column sum; the result is
returned raw or wrapped in a new store per the `return_numpy` flag. -/
theorem wnorm_expected_log (d : Dirichlet ℚ) (b : Bool) (hwf : d.wfD) :
    (d.wnorm b).1 = d ∧
    (match d.values with
      | .dense t =>
          (d.wnorm b).2 = (if b then .numpyRet (.dense t.wnormT)
            else .storeRet (npWrapArr t.wnormT)) ∧
          wnormProp t t.wnormT
      | .ragged ts =>
          (d.wnorm b).2 = (if b then .numpyRet (.ragged (ts.map Tensor.wnormT))
            else .storeRet (npWrapObj (ts.map Tensor.wnormT))) ∧
          List.Forall₂ wnormProp ts (ts.map Tensor.wnormT)) := by
  rcases d with ⟨v⟩
  cases v with
  | dense t => exact ⟨rfl, rfl, wnormProp_of t hwf⟩
  | ragged ts =>
      exact ⟨rfl, rfl, forall₂_map_right _ _ ts
        (fun t ht => wnormProp_of t (hwf t ht))⟩

/-- Witness for C2 at the concrete dense store `[[1], [3]]`. -/
theorem wnorm_expected_log_witness :
    (⟨.dense ⟨[2, 1], [1, 3]⟩⟩ : Dirichlet ℚ).wfD ∧
    ((⟨.dense ⟨[2, 1], [1, 3]⟩⟩ : Dirichlet ℚ).wnorm true).1 =
      ⟨.dense ⟨[2, 1], [1, 3]⟩⟩ ∧
    wnormProp ⟨[2, 1], [1, 3]⟩ (Tensor.wnormT ⟨[2, 1], [1, 3]⟩) := by
  have hwf : (⟨.dense ⟨[2, 1], [1, 3]⟩⟩ : Dirichlet ℚ).wfD := by
    norm_num [Dirichlet.wfD, Tensor.wf]
  have h := wnorm_expected_log ⟨.dense ⟨[2, 1], [1, 3]⟩⟩ true hwf
  exact ⟨hwf, h.1, h.2.2⟩

/-! Lemmas for the log claim. -/

lemma hasZero_addConst_false (t : Tensor ℚ) (hnn : t.nonneg) :
    (t.addConst exp_neg16).hasZero = false := by
  simp only [Tensor.hasZero, Tensor.addConst]
  rw [List.any_eq_false]
  intro x hx
  rcases List.mem_map.mp hx with ⟨y, hy, rfl⟩
  have h1 := hnn y hy
  have h2 := exp_neg16_pos
  simp only [beq_iff_eq]
  intro h
  linarith

lemma remove_zeros_no_zeros (d : Dirichlet ℚ) (hnn : d.nonnegD) :
    (d.remove_zeros).contains_zeros = false := by
  rcases d with ⟨v⟩
  cases v with
  | dense t => exact hasZero_addConst_false t hnn
  | ragged ts =>
      simp only [Dirichlet.remove_zeros, Values.addFloor, Dirichlet.contains_zeros]
      rw [List.any_eq_false]
      intro u hu
      rcases List.mem_map.mp hu with ⟨t, ht, rfl⟩
      simp [hasZero_addConst_false t (hnn t ht)]

lemma addConst_pos (t : Tensor ℚ) (hnn : t.nonneg) :
    ∀ x ∈ (t.addConst exp_neg16).data, 0 < x := by
  intro x hx
  rcases List.mem_map.mp hx with ⟨y, hy, rfl⟩
  have h1 := hnn y hy
  have h2 := exp_neg16_pos
  linarith

lemma logT_finite_of_pos (t : Tensor ℚ) (h : ∀ x ∈ t.data, 0 < x) :
    ∀ e ∈ (t.logT).data, e.isFinite = true := by
  intro e he
  rcases List.mem_map.mp he with ⟨x, hx, rfl⟩
  have := h x hx
  simp [np_log, this, LogV.isFinite]

/-- Every entry of every tensor in a log-result container is a finite number. -/
def allFiniteV (v : Values LogV) : Prop :=
  match v with
  | .dense u => ∀ e ∈ u.data, e.isFinite = true
  | .ragged us => ∀ u ∈ us, ∀ e ∈ u.data, e.isFinite = true

/-- The two containers use the same representation (Dense with Dense,
Ragged with Ragged). -/
def sameRepV {α β : Type} (v : Values α) (w : Values β) : Prop :=
  match v, w with
  | .dense _, .dense _ => True
  | .ragged _, .ragged _ => True
  | _, _ => False

/-- C3 (amended): on a store that contains a zero entry and whose entries are
all nonnegative, `log()` does not fail: it issues the non-fatal warning,
repairs the receiver itself in place via `remove_zeros` (no copy), returns
only finite log values, equals the result of calling `log()` on the
equivalently pre-repaired store (which then warns no further), preserves the
representation, and returns raw or wrapped per the flag.  The amendment adds
nonnegativity: with a negative entry (see the counterexample) the log of the
still-negative floored value is NaN, which is non-finite. -/
theorem log_on_zero_store (d : Dirichlet ℚ) (b : Bool)
    (hz : d.contains_zeros = true) (hnn : d.nonnegD) :
    (d.log b).warned = true ∧
    (d.log b).post = d.remove_zeros ∧
    ((d.remove_zeros).log b).warned = false ∧
    (d.log b).ret = ((d.remove_zeros).log b).ret ∧
    (match (d.log b).ret with
      | .numpyRet lv => b = true ∧ allFiniteV lv ∧ sameRepV d.values lv
      | .storeRet s => b = false ∧ allFiniteV s.values ∧ sameRepV d.values s.values) := by
  have hz2 : (d.remove_zeros).contains_zeros = false := remove_zeros_no_zeros d hnn
  refine ⟨?_, ?_, ?_, ?_, ?_⟩
  · simp [Dirichlet.log, hz]
  · simp [Dirichlet.log, hz]
  · simp [Dirichlet.log, hz2]
  · simp [Dirichlet.log, hz, hz2]
  · rcases d with ⟨v⟩
    cases v with
    | dense t =>
        have hpos := addConst_pos t hnn
        cases b with
        | true =>
            simp only [Dirichlet.log, hz, if_true, Dirichlet.remove_zeros,
              Values.addFloor]
            exact ⟨trivial, logT_finite_of_pos _ hpos, trivial⟩
        | false =>
            simp only [Dirichlet.log, hz, if_true, Bool.false_eq_true, if_false,
              Dirichlet.remove_zeros, Values.addFloor]
            refine ⟨trivial, ?_, ?_⟩
            · show allFiniteV (npWrapArr _).values
              rw [npWrapArr_values]
              show ∀ e ∈ (promote ((t.addConst exp_neg16).logT)).data, _
              rw [promote_data]
              exact logT_finite_of_pos _ hpos
            · show sameRepV _ (npWrapArr _).values
              rw [npWrapArr_values]
              trivial
    | ragged ts =>
        cases b with
        | true =>
            simp only [Dirichlet.log, hz, if_true, Dirichlet.remove_zeros,
              Values.addFloor]
            refine ⟨trivial, ?_, trivial⟩
            intro u hu
            rcases List.mem_map.mp hu with ⟨t', ht', rfl⟩
            rcases List.mem_map.mp ht' with ⟨t, ht, rfl⟩
            exact logT_finite_of_pos _ (addConst_pos t (hnn t ht))
        | false =>
            simp only [Dirichlet.log, hz, if_true, Bool.false_eq_true, if_false,
              Dirichlet.remove_zeros, Values.addFloor]
            refine ⟨trivial, ?_, ?_⟩
            · show allFiniteV (npWrapObj _).values
              rw [npWrapObj_values]
              intro u hu
              rcases List.mem_map.mp hu with ⟨t', ht', rfl⟩
              rcases List.mem_map.mp ht' with ⟨t'', ht'', rfl⟩
              rcases List.mem_map.mp ht'' with ⟨t, ht, rfl⟩
              rw [promote_data]
              exact logT_finite_of_pos _ (addConst_pos t (hnn t ht))
            · show sameRepV _ (npWrapObj _).values
              rw [npWrapObj_values]
              trivial

/-- C3 counterexample: the store `[[0], [-1]]` contains a zero entry, yet
`log()` returns NaN — the log of the still-negative floored entry
`-1 + e^-16` — in its second cell, a non-finite value contradicting the
claim's "all finite" guarantee. -/
theorem log_negative_entry_counterexample :
    (Dirichlet.log ⟨.dense ⟨[2, 1], [(0 : ℚ), -1]⟩⟩ true).warned = true ∧
    (Dirichlet.log ⟨.dense ⟨[2, 1], [(0 : ℚ), -1]⟩⟩ true).ret =
      .numpyRet (.dense ⟨[2, 1], [.lg exp_neg16, .nan]⟩) ∧
    LogV.isFinite .nan = false := by
  refine ⟨?_, ?_, rfl⟩ <;>
    norm_num [Dirichlet.log, Dirichlet.contains_zeros, Tensor.hasZero,
      Dirichlet.remove_zeros, Values.addFloor, Tensor.addConst, Tensor.logT,
      np_log, exp_neg16]

/-- Witness for C3 at the concrete store `[[0], [1]]`. -/
theorem log_on_zero_store_witness :
    (⟨.dense ⟨[2, 1], [0, 1]⟩⟩ : Dirichlet ℚ).contains_zeros = true ∧
    (⟨.dense ⟨[2, 1], [0, 1]⟩⟩ : Dirichlet ℚ).nonnegD ∧
    ((⟨.dense ⟨[2, 1], [0, 1]⟩⟩ : Dirichlet ℚ).log true).warned = true ∧
    ((⟨.dense ⟨[2, 1], [0, 1]⟩⟩ : Dirichlet ℚ).log true).ret =
      (((⟨.dense ⟨[2, 1], [0, 1]⟩⟩ : Dirichlet ℚ).remove_zeros).log true).ret := by
  have hz : (⟨.dense ⟨[2, 1], [0, 1]⟩⟩ : Dirichlet ℚ).contains_zeros = true := by
    norm_num [Dirichlet.contains_zeros, Tensor.hasZero]
  have hnn : (⟨.dense ⟨[2, 1], [0, 1]⟩⟩ : Dirichlet ℚ).nonnegD := by
    norm_num [Dirichlet.nonnegD, Tensor.nonneg]
  have h := log_on_zero_store ⟨.dense ⟨[2, 1], [0, 1]⟩⟩ true hz hnn
  exact ⟨hz, hnn, h.1, h.2.2.2.1⟩
